import Mathlib

/-! Shallow embedding of the `wow-framework` HTTP router
(`src/routing/router.rs`) and proofs about its behaviour.  The routing
tree (`Node` in `src/routing/tree.rs`) and the path normalisation routine
(`clean_path` in `src/routing/path.rs`) are referenced by the router but
their sources are not part of the repository snapshot; they are modelled
from the specification where required, as noted on each definition. -/

namespace WowRouter

/-- Param is a single URL parameter, consisting of a key and a value
(struct `Param`, router.rs lines 10-14). -/
structure Param where
  key : String
  value : String
  deriving DecidableEq, Repr

/-- Params is an ordered sequence of `Param` as returned by the route
(struct `Params(pub Vec<Param>)`, router.rs line 29). -/
structure Params where
  toList : List Param
  deriving DecidableEq, Repr

/-- Empty `Params` (`Params::new`, router.rs lines 42-44). -/
def Params.new : Params := ⟨[]⟩

/-- `Params::get` (router.rs lines 34-39): linear scan returning the value
of the first `Param` whose key matches `name`, else `None`. -/
def Params.get (p : Params) (name : String) : Option String :=
  match p.toList.find? (fun param => param.key == name) with
  | some param => some param.value
  | none => none

/-- `Params::push` (router.rs lines 50-52): append, preserving order. -/
def Params.push (p : Params) (x : Param) : Params :=
  ⟨p.toList ++ [x]⟩

/-- `Index<usize> for Params` (router.rs lines 55-61): `&(self.0)[i].value`.
Rust `Vec` indexing aborts (panics) when `i` is out of bounds; the panic is
modelled as `none`, an in-bounds access as `some` of the value at `i`. -/
def Params.index (p : Params) (i : Nat) : Option String :=
  (p.toList.get? i).map (fun param => param.value)

/-- Splits a character list at every `/` (the segment decomposition used by
path cleaning); mirrors splitting a string on the separator `/`, so
`splitSlash "".data = [[]]` and a leading or trailing `/` contributes an
empty segment. -/
def splitSlash : List Char → List (List Char)
  | [] => [[]]
  | c :: cs =>
    if c = '/' then [] :: splitSlash cs
    else
      match splitSlash cs with
      | [] => [[c]]
      | s :: ss => (c :: s) :: ss

/-- Joins segments back with a single `/` between consecutive segments. -/
def joinSlash : List (List Char) → List Char
  | [] => []
  | [s] => s
  | s :: ss => s ++ '/' :: joinSlash ss

/-- One step of dot-segment resolution: empty segments (repeated `/`) and
`.` are dropped, `..` pops the previous segment (clamped at root), any
other segment is kept. -/
def elimStep (stack : List (List Char)) (seg : List Char) : List (List Char) :=
  if seg = [] ∨ seg = ['.'] then stack
  else if seg = ['.', '.'] then stack.dropLast
  else stack ++ [seg]

/-- Resolves all dot segments of a segment list, left to right. -/
def elimDots (segs : List (List Char)) : List (List Char) :=
  segs.foldl elimStep []

/-- The character-list form of path cleaning: split on `/`, resolve dot
segments, rejoin behind a leading `/`. -/
def cleanList (cs : List Char) : List Char :=
  '/' :: joinSlash (elimDots (splitSlash cs))

/-- Modelled from the spec: `clean_path` (src/routing/path.rs, not in the
sources; spec §4.1/§4.4): collapses repeated `/`, resolves `.` and `..`
segments (`..` above root is clamped to root), ensures a leading `/`, and
removes a trailing `/` unless the result is exactly `/`. -/
def clean_path (p : String) : String :=
  String.mk (cleanList p.data)

/-- A segment is plain when dot-segment resolution simply keeps it. -/
def PlainSeg (s : List Char) : Prop :=
  s ≠ [] ∧ s ≠ ['.'] ∧ s ≠ ['.', '.']

/-- Embeds Rust `path.starts_with("/")`: true iff the first character is
`/`. -/
def beginsWithSlash (path : String) : Bool :=
  match path.data with
  | c :: _ => c == '/'
  | [] => false

/-- Embeds Rust `path.ends_with("/")`: true iff the last character is `/`. -/
def endsWithSlash (path : String) : Bool :=
  match path.data.getLast? with
  | some c => c == '/'
  | none => false

/-- Modelled from the spec: the routing tree `Node<T>` of
`src/routing/tree.rs` is not in the sources.  `serve_http`, `lookup` and
`allowed` interact with a tree only through its two read-only queries
(spec §4.4, §4.5, §5), so a tree is represented by exactly that
interface: `get_value path` returns the optional handler, the bound
parameters and the trailing-slash-redirect recommendation, and
`find_case_insensitive_path path fix_trailing_slash` returns the
case-corrected path and whether it was found. -/
structure Node (T : Type) where
  get_value : String → Option T × Params × Bool
  find_case_insensitive_path : String → Bool → String × Bool

/-- An abstract HTTP request as consumed by `serve_http`: method and URI
path. -/
structure HttpRequest where
  method : String
  path : String
  deriving DecidableEq, Repr

/-- An abstract HTTP response as synthesised by `serve_http`: status code,
headers and body.  `hyper::Response::builder()` defaults the status to
200. -/
structure HttpResponse where
  status : Nat
  headers : List (String × String)
  body : String
  deriving DecidableEq, Repr

/-- The outcome of `serve_http`: either a registered handler (matched
handler, custom `method_not_allowed` or custom `not_found`) is invoked
with the given parameters, or the router synthesises a response itself. -/
inductive ServeResult (T : Type) where
  | invoke (h : T) (ps : Params)
  | response (resp : HttpResponse)
  deriving DecidableEq, Repr

/-- The status code of a synthesised response, `none` for a handler
invocation. -/
def statusOf {T : Type} : ServeResult T → Option Nat
  | ServeResult.response resp => some resp.status
  | ServeResult.invoke _ _ => none

/-- A response is a redirect when its status is 301 or 307 and it carries a
`Location` header. -/
def HttpResponse.isRedirect (resp : HttpResponse) : Bool :=
  (resp.status == 301 || resp.status == 307) &&
    resp.headers.any (fun h => h.1 == "Location")

/-- The status of a redirect answer synthesised by `serve_http`, `none`
when the outcome is not a redirect response. -/
def redirectStatus {T : Type} : ServeResult T → Option Nat
  | ServeResult.response resp =>
      if resp.isRedirect then some resp.status else none
  | ServeResult.invoke _ _ => none

/-- The route table (struct `Route<T>`, router.rs lines 83-132): a
`BTreeMap<String, Node<T>>` from method name to tree — embedded as an
association list held in the map's ascending key order — plus the four
policy flags and the three optional fallback handlers. -/
structure Route (T : Type) where
  trees : List (String × Node T)
  redirect_trailing_slash : Bool
  redirect_fixed_path : Bool
  handle_method_not_allowed : Bool
  handle_options : Bool
  not_found : Option T
  method_not_allowed : Option T
  panic_handler : Option T

/-- `Route::new` (router.rs lines 137-148): empty table, all four flags
true, no fallback handlers. -/
def Route.new {T : Type} : Route T :=
  { trees := []
    redirect_trailing_slash := true
    redirect_fixed_path := true
    handle_method_not_allowed := true
    handle_options := true
    not_found := none
    method_not_allowed := none
    panic_handler := none }

/-- `self.trees.get(method)` on the association-list embedding of the
`BTreeMap`. -/
def treesGet {T : Type} (trees : List (String × Node T)) (method : String) :
    Option (Node T) :=
  (trees.find? (fun kt => kt.1 == method)).map (fun kt => kt.2)

/-- `BTreeMap` insertion on the association-list embedding: replaces the
entry with an equal key, otherwise inserts at the position given by the
ascending key order. -/
def treesInsert {T : Type} :
    List (String × Node T) → String → Node T → List (String × Node T)
  | [], m, n => [(m, n)]
  | (k, v) :: rest, m, n =>
    match compare m k with
    | Ordering.lt => (m, n) :: (k, v) :: rest
    | Ordering.eq => (m, n) :: rest
    | Ordering.gt => (k, v) :: treesInsert rest m n

/-- `self.trees.entry(method).or_insert(Node::new())`: the tree registered
for `method`, or the given fresh node when the method has no tree yet.
`Node::new` itself is part of the missing tree module, so the fresh node
is a parameter. -/
def nodeGetOr {T : Type} (trees : List (String × Node T)) (method : String)
    (newNode : Node T) : Node T :=
  match treesGet trees method with
  | some n => n
  | none => newNode

/-- `Route::handle` (router.rs lines 207-216).  The registration-time
panic on a path that does not begin with `/` is modelled as
`Except.error` (the route table is left untouched: the caller keeps the
unmodified `r`); otherwise the method's tree (a fresh node when absent)
is transformed by `add_route` and stored back.  `Node::add_route` is part
of the missing tree module and is therefore a parameter. -/
def Route.handleWith {T : Type} (r : Route T)
    (addRoute : Node T → String → T → Node T) (newNode : Node T)
    (method path : String) (h : T) : Except String (Route T) :=
  if beginsWithSlash path = false then
    Except.error ("path must begin with / in path " ++ path)
  else
    Except.ok { r with
      trees := treesInsert r.trees method
        (addRoute (nodeGetOr r.trees method newNode) path h) }

/-- `Route::lookup` (router.rs lines 225-230), with the `&mut self`
receiver made explicit as state passing: the second component is the
route table after the call.  The body only queries
`trees.get_mut(method)` and `Node::get_value` (read-only per spec §5), so
the returned table is the input table. -/
def Route.lookup {T : Type} (r : Route T) (method path : String) :
    (Option T × Params × Bool) × Route T :=
  (match treesGet r.trees method with
   | some n => n.get_value path
   | none => (none, Params.new, false), r)

/-- The method-name push pattern of `Route::allowed` (router.rs lines
240-245 and 256-263): the first name is taken as is, every further name
is appended behind a comma. -/
def joinMethod (allow m : String) : String :=
  if allow == "" then m else allow ++ ", " ++ m

/-- The final step of `Route::allowed` (router.rs lines 268-272): append
`", OPTIONS"` when the accumulated list is non-empty. -/
def finishAllow (allow : String) : String :=
  if allow.length > 0 then allow ++ ", OPTIONS" else allow

/-- The method names collected by the `path == "*"` loop of
`Route::allowed`: every registered method name other than OPTIONS, in
table order. -/
def starMethods {T : Type} (trees : List (String × Node T)) : List String :=
  (trees.map Prod.fst).filter (fun k => !(k == "OPTIONS"))

/-- The method names collected by the general-path loop of
`Route::allowed`: every registered method other than the requesting
method and OPTIONS whose tree yields a handler for `path`, in table
order. -/
def allowedMethods {T : Type} (trees : List (String × Node T))
    (path m : String) : List String :=
  (trees.filter (fun kt =>
    (!(kt.1 == m || kt.1 == "OPTIONS")) &&
      (kt.2.get_value path).1.isSome)).map Prod.fst

/-- `Route::allowed` (router.rs lines 232-273): builds the comma-joined
list of allowed methods for a path.  For `path == "*"` every registered
method except OPTIONS is listed; otherwise a method is listed when it is
neither the requesting method nor OPTIONS and its tree yields a handler
for the path.  When the accumulated list is non-empty, `", OPTIONS"` is
appended. -/
def Route.allowed {T : Type} (r : Route T) (path req_method : String) :
    String :=
  finishAllow
    (if path = "*" then
      r.trees.foldl
        (fun allow kt =>
          if kt.1 == "OPTIONS" then allow
          else joinMethod allow kt.1) ""
    else
      r.trees.foldl
        (fun allow kt =>
          if kt.1 == req_method || kt.1 == "OPTIONS" then allow
          else if (kt.2.get_value path).1.isSome then joinMethod allow kt.1
          else allow) "")

/-- The first phase of `serve_http` (router.rs lines 293-344): the part
guarded by `if let Some(root) = self.trees.get(req.method())`.  Returns
`some` when that block returns (handler invocation, trailing-slash
redirect, or fixed-path redirect), `none` when control falls through to
the OPTIONS / 405 / 404 handling. -/
def Route.servePhase1 {T : Type} (r : Route T) (req : HttpRequest) :
    Option (ServeResult T) :=
  match treesGet r.trees req.method with
  | none => none
  | some root =>
    match root.get_value req.path with
    | (some h, ps, _) => some (ServeResult.invoke h ps)
    | (none, _, tsr) =>
      if req.method ≠ "CONNECT" ∧ req.path ≠ "/" then
        -- the source binds `code` and `path` to local variables; both are
        -- inlined here
        if tsr = true ∧ r.redirect_trailing_slash = true then
          some (ServeResult.response
            ⟨(if req.method ≠ "GET" then 307 else 301),
             [("Location",
               if req.path.length > 1 ∧ endsWithSlash req.path = true then
                 String.mk req.path.data.dropLast
               else req.path ++ "/")], ""⟩)
        else if r.redirect_fixed_path = true then
          match root.find_case_insensitive_path (clean_path req.path)
              r.redirect_trailing_slash with
          | (fixed_path, true) =>
            some (ServeResult.response
              ⟨(if req.method ≠ "GET" then 307 else 301),
               [("Location", fixed_path)], ""⟩)
          | (_, false) => none
        else none
      else none

/-- The 404 tail of `serve_http` (router.rs lines 379-388): the custom
`not_found` handler when configured, else a plain 404 response. -/
def Route.serveNotFound {T : Type} (r : Route T) : ServeResult T :=
  match r.not_found with
  | some h => ServeResult.invoke h Params.new
  | none => ServeResult.response ⟨404, [], "NOT_FOUND"⟩

/-- The fall-through phase of `serve_http` (router.rs lines 346-388):
automatic OPTIONS answer, 405 handling, then 404. -/
def Route.serveFallback {T : Type} (r : Route T) (req : HttpRequest) :
    ServeResult T :=
  -- the source binds `allow` to a local variable in both branches; it is
  -- inlined here
  if req.method = "OPTIONS" ∧ r.handle_options = true then
    if (r.allowed req.path req.method).length > 0 then
      ServeResult.response
        ⟨200, [("Allow", r.allowed req.path req.method)], ""⟩
    else r.serveNotFound
  else if r.handle_method_not_allowed = true then
    if (r.allowed req.path req.method).length > 0 then
      match r.method_not_allowed with
      | some h => ServeResult.invoke h Params.new
      | none =>
        ServeResult.response
          ⟨405, [("Allow", r.allowed req.path req.method)],
           "METHOD_NOT_ALLOWED"⟩
    else r.serveNotFound
  else r.serveNotFound

/-- `Route::serve_http` (router.rs lines 292-389): dispatches a request to
a handler or synthesises a redirect / OPTIONS / 405 / 404 response. -/
def Route.serve_http {T : Type} (r : Route T) (req : HttpRequest) :
    ServeResult T :=
  match r.servePhase1 req with
  | some res => res
  | none => r.serveFallback req

/-- `serve_http` with its `&self` receiver made explicit as state passing:
the second component is the route table after the call.  The Rust body
takes `&self` and performs no interior mutation, so the returned table is
the input table. -/
def Route.serve_http_st {T : Type} (r : Route T) (req : HttpRequest) :
    ServeResult T × Route T :=
  (r.serve_http req, r)

/-- A concrete tree with no routes: every lookup fails with no
trailing-slash recommendation, and the case-insensitive search never
succeeds. -/
def emptyNode {T : Type} : Node T :=
  { get_value := fun _ => (none, Params.new, false)
    find_case_insensitive_path := fun _ _ => ("", false) }

/-- A concrete tree holding exactly the route `/foo` with handler `h`: the
lookup of `/foo` succeeds, the lookup of `/foo/` recommends the
trailing-slash redirect, everything else fails. -/
def fooNode {T : Type} (h : T) : Node T :=
  { get_value := fun path =>
      if path = "/foo" then (some h, Params.new, false)
      else if path = "/foo/" then (none, Params.new, true)
      else (none, Params.new, false)
    find_case_insensitive_path := fun _ _ => ("", false) }

/-- A route table with the given trees and the `Route::new` defaults for
all flags and fallback handlers. -/
def routeWith {T : Type} (trees : List (String × Node T)) : Route T :=
  { Route.new with trees := trees }

/-- A concrete `Params` value with a duplicate key. -/
def paramsDup : Params := ⟨[⟨"a", "1"⟩, ⟨"a", "2"⟩, ⟨"b", "3"⟩]⟩

/-- A concrete one-element `Params` value. -/
def paramsOne : Params := ⟨[⟨"k", "v"⟩]⟩

end WowRouter

namespace WowRouter

/-- Splitting never yields the empty segment list. -/
theorem splitSlash_ne_nil (cs : List Char) : splitSlash cs ≠ [] := by
  induction cs with
  | nil => simp [splitSlash]
  | cons c cs ih =>
    simp only [splitSlash]
    split
    · simp
    · split
      · simp
      · simp

/-- Segments produced by splitting contain no separator. -/
theorem splitSlash_no_slash (cs : List Char) :
    ∀ s ∈ splitSlash cs, '/' ∉ s := by
  induction cs with
  | nil =>
    intro s hs
    simp only [splitSlash, List.mem_singleton] at hs
    subst hs; simp
  | cons c cs ih =>
    intro s hs
    simp only [splitSlash] at hs
    by_cases hc : c = '/'
    · rw [if_pos hc] at hs
      rcases List.mem_cons.mp hs with h | h
      · subst h; simp
      · exact ih s h
    · rw [if_neg hc] at hs
      rcases hsplit : splitSlash cs with _ | ⟨s0, ss⟩
      · exact absurd hsplit (splitSlash_ne_nil cs)
      · rw [hsplit] at hs
        rcases List.mem_cons.mp hs with h | h
        · subst h
          intro hmem
          rcases List.mem_cons.mp hmem with h1 | h1
          · exact hc h1.symm
          · exact ih s0 (hsplit ▸ List.mem_cons_self s0 ss) h1
        · exact ih s (hsplit ▸ List.mem_cons_of_mem s0 h)

/-- Splitting a separator-free block followed by a remainder prepends the
block onto the first segment of the remainder. -/
theorem splitSlash_append (s rest r : List Char) (rs : List (List Char))
    (hs : '/' ∉ s) (hr : splitSlash rest = r :: rs) :
    splitSlash (s ++ rest) = (s ++ r) :: rs := by
  induction s with
  | nil => simpa using hr
  | cons c s ih =>
    have hc : ¬ c = '/' := fun h => hs (List.mem_cons.mpr (Or.inl h.symm))
    have hs2 : '/' ∉ s := fun h => hs (List.mem_cons_of_mem c h)
    simp only [List.cons_append, splitSlash]
    rw [if_neg hc, List.append_eq, ih hs2]

/-- Splitting after a leading separator contributes one empty segment. -/
theorem splitSlash_cons_slash (cs : List Char) :
    splitSlash ('/' :: cs) = [] :: splitSlash cs := by
  simp [splitSlash]

/-- Splitting inverts joining on non-empty lists of separator-free
segments. -/
theorem splitSlash_joinSlash (ss : List (List Char)) (hne : ss ≠ [])
    (hs : ∀ s ∈ ss, '/' ∉ s) : splitSlash (joinSlash ss) = ss := by
  induction ss with
  | nil => exact absurd rfl hne
  | cons s ss ih =>
    cases ss with
    | nil =>
      have h0 : splitSlash ([] : List Char) = [] :: [] := rfl
      have h1 := splitSlash_append s [] [] []
        (hs s (List.mem_cons_self s [])) h0
      simpa [joinSlash] using h1
    | cons s2 ss2 =>
      have hjoin : joinSlash (s :: s2 :: ss2) = s ++ '/' :: joinSlash (s2 :: ss2) := rfl
      have hrec : splitSlash (joinSlash (s2 :: ss2)) = s2 :: ss2 :=
        ih (by simp) (fun x hx => hs x (List.mem_cons_of_mem s hx))
      have hmid : splitSlash ('/' :: joinSlash (s2 :: ss2)) = [] :: s2 :: ss2 := by
        rw [splitSlash_cons_slash, hrec]
      have h2 := splitSlash_append s ('/' :: joinSlash (s2 :: ss2)) [] (s2 :: ss2)
        (hs s (List.mem_cons_self s _)) hmid
      rw [hjoin, h2]
      simp

/-- Every segment surviving dot-segment resolution is plain and free of
separators, provided the incoming segments are separator-free. -/
theorem foldl_elimStep_inv (segs : List (List Char)) :
    ∀ stack : List (List Char),
    (∀ s ∈ stack, PlainSeg s ∧ '/' ∉ s) →
    (∀ s ∈ segs, '/' ∉ s) →
    ∀ s ∈ segs.foldl elimStep stack, PlainSeg s ∧ '/' ∉ s := by
  induction segs with
  | nil => intro stack hstack _ s hs; exact hstack s hs
  | cons seg segs ih =>
    intro stack hstack hsegs s hs
    simp only [List.foldl_cons] at hs
    refine ih (elimStep stack seg) ?_
      (fun x hx => hsegs x (List.mem_cons_of_mem _ hx)) s hs
    intro x hx
    unfold elimStep at hx
    split at hx
    · exact hstack x hx
    · split at hx
      · exact hstack x (List.dropLast_subset stack hx)
      · rcases List.mem_append.mp hx with h | h
        · exact hstack x h
        · rw [List.mem_singleton.mp h]
          refine ⟨⟨?_, ?_, ?_⟩, hsegs seg (List.mem_cons_self _ _)⟩
          · rename_i hnot1 _
            exact fun hh => hnot1 (Or.inl hh)
          · rename_i hnot1 _
            exact fun hh => hnot1 (Or.inr hh)
          · rename_i _ hnot2
            exact hnot2

/-- Dot-segment resolution is the identity on a list of plain segments. -/
theorem foldl_elimStep_plain (segs : List (List Char)) :
    ∀ stack, (∀ s ∈ segs, PlainSeg s) →
    segs.foldl elimStep stack = stack ++ segs := by
  induction segs with
  | nil => intro stack _; simp
  | cons seg segs ih =>
    intro stack hp
    have hps : PlainSeg seg := hp seg (List.mem_cons_self _ _)
    have hstep : elimStep stack seg = stack ++ [seg] := by
      unfold elimStep
      rw [if_neg (by rintro (h | h); exacts [hps.1 h, hps.2.1 h]),
        if_neg hps.2.2]
    rw [List.foldl_cons, hstep,
      ih _ (fun x hx => hp x (List.mem_cons_of_mem _ hx))]
    simp

/-- Path cleaning at the character-list level is idempotent. -/
theorem cleanList_idem (cs : List Char) :
    cleanList (cleanList cs) = cleanList cs := by
  unfold cleanList
  have hLprops : ∀ s ∈ elimDots (splitSlash cs), PlainSeg s ∧ '/' ∉ s :=
    foldl_elimStep_inv _ [] (by simp) (splitSlash_no_slash cs)
  rcases hcase : elimDots (splitSlash cs) with _ | ⟨s0, ss0⟩
  · simp [hcase, joinSlash, splitSlash, elimDots, elimStep]
  · rw [hcase] at hLprops
    have hsplit : splitSlash ('/' :: joinSlash (s0 :: ss0)) = [] :: s0 :: ss0 := by
      rw [splitSlash_cons_slash,
        splitSlash_joinSlash (s0 :: ss0) (by simp)
          (fun s hs => (hLprops s hs).2)]
    rw [hsplit]
    have helim : elimDots ([] :: s0 :: ss0) = s0 :: ss0 := by
      unfold elimDots
      rw [List.foldl_cons, show elimStep [] [] = [] from by
          unfold elimStep; simp,
        foldl_elimStep_plain (s0 :: ss0) [] (fun s hs => (hLprops s hs).1)]
      simp
    rw [helim]

/-- Claim C6 (spec-modelled `clean_path`): `clean_path` is idempotent, its
result always begins with `/`, its result never retains a `..` segment
(so the cleaned path never escapes above root), and
`clean_path "/a/../../b" = "/b"`. -/
theorem clean_path_idempotent_no_escape :
    (∀ p : String, clean_path (clean_path p) = clean_path p) ∧
    clean_path "/a/../../b" = "/b" ∧
    (∀ p : String, beginsWithSlash (clean_path p) = true) ∧
    (∀ p : String, ∀ s ∈ splitSlash (clean_path p).data, s ≠ ['.', '.']) := by
  refine ⟨?_, by decide, ?_, ?_⟩
  · intro p
    show String.mk (cleanList (String.mk (cleanList p.data)).data) = _
    rw [show (String.mk (cleanList p.data)).data = cleanList p.data from rfl,
      cleanList_idem]
    rfl
  · intro p
    rfl
  · intro p s hs
    have hLprops : ∀ x ∈ elimDots (splitSlash p.data), PlainSeg x ∧ '/' ∉ x :=
      foldl_elimStep_inv _ [] (by simp) (splitSlash_no_slash p.data)
    have hdata : (clean_path p).data =
        '/' :: joinSlash (elimDots (splitSlash p.data)) := rfl
    rw [hdata] at hs
    rcases hcase : elimDots (splitSlash p.data) with _ | ⟨s0, ss0⟩
    · rw [hcase] at hs
      simp only [joinSlash, splitSlash, if_pos rfl] at hs
      rcases List.mem_cons.mp hs with h | h
      · subst h; simp
      · rw [List.mem_singleton.mp h]; simp
    · rw [hcase] at hs hLprops
      rw [splitSlash_cons_slash,
        splitSlash_joinSlash (s0 :: ss0) (by simp)
          (fun x hx => (hLprops x hx).2)] at hs
      rcases List.mem_cons.mp hs with h | h
      · subst h; simp
      · exact (hLprops s h).1.2.2

/-- Witness for C6: the segment `b` of `clean_path "/a/../b"` is not `..`,
and idempotence holds at the concrete path `//x/./../y`. -/
theorem clean_path_idempotent_no_escape_witness :
    (['b'] ≠ ['.', '.']) ∧
    clean_path (clean_path "//x/./../y") = clean_path "//x/./../y" :=
  ⟨clean_path_idempotent_no_escape.2.2.2 "/a/../b" ['b'] (by decide),
   clean_path_idempotent_no_escape.1 "//x/./../y"⟩

/-- `String.intercalate.go` is a left fold that appends behind commas. -/
theorem intercalate_go_foldl (l : List String) :
    ∀ acc : String, String.intercalate.go acc ", " l =
      l.foldl (fun a x => a ++ ", " ++ x) acc := by
  induction l with
  | nil => intro acc; rfl
  | cons x l ih =>
    intro acc
    rw [List.foldl_cons]
    exact ih (acc ++ ", " ++ x)

/-- A string that is not `""` has positive length. -/
theorem str_length_pos (s : String) (h : s ≠ "") : s.length > 0 := by
  show s.data.length > 0
  refine List.length_pos.mpr ?_
  intro hnil
  exact h (String.ext_iff.mpr hnil)

/-- With a non-empty accumulator, `joinMethod` always appends behind a
comma. -/
theorem foldl_joinMethod_ne (l : List String) :
    ∀ acc : String, acc ≠ "" →
      l.foldl joinMethod acc = l.foldl (fun a x => a ++ ", " ++ x) acc := by
  induction l with
  | nil => intro acc _; rfl
  | cons x l ih =>
    intro acc hacc
    rw [List.foldl_cons, List.foldl_cons]
    have hstep : joinMethod acc x = acc ++ ", " ++ x := by
      unfold joinMethod
      rw [if_neg (by simpa using hacc)]
    rw [hstep]
    refine ih _ ?_
    intro h
    have hl := congrArg String.length h
    simp only [String.length_append] at hl
    have h2 : String.length ", " = 2 := rfl
    have h0 : String.length "" = 0 := rfl
    omega

/-- Folding `joinMethod` from a non-empty accumulator never yields `""`. -/
theorem foldl_joinMethod_ne_empty (l : List String) :
    ∀ acc : String, acc ≠ "" → l.foldl joinMethod acc ≠ "" := by
  induction l with
  | nil => intro acc h; exact h
  | cons x l ih =>
    intro acc hacc
    rw [List.foldl_cons]
    refine ih _ ?_
    unfold joinMethod
    rw [if_neg (by simpa using hacc)]
    intro h
    have hl := congrArg String.length h
    simp only [String.length_append] at hl
    have h2 : String.length ", " = 2 := rfl
    have h0 : String.length "" = 0 := rfl
    omega

/-- Folding `joinMethod` over a list starting at its non-empty head is
the comma-joining of the list. -/
theorem foldl_joinMethod_intercalate (k : String) (l : List String)
    (hk : k ≠ "") :
    l.foldl joinMethod k = String.intercalate ", " (k :: l) := by
  rw [show String.intercalate ", " (k :: l) =
      String.intercalate.go k ", " l from rfl,
    intercalate_go_foldl, foldl_joinMethod_ne l k hk]

/-- Unfolding equation for `starMethods` on a cons cell. -/
theorem starMethods_cons {T : Type} (kt : String × Node T)
    (l : List (String × Node T)) :
    starMethods (kt :: l) =
      if (!(kt.1 == "OPTIONS")) = true then kt.1 :: starMethods l
      else starMethods l := by
  unfold starMethods
  rw [List.map_cons, List.filter_cons]

/-- Unfolding equation for `allowedMethods` on a cons cell. -/
theorem allowedMethods_cons {T : Type} (kt : String × Node T)
    (l : List (String × Node T)) (path m : String) :
    allowedMethods (kt :: l) path m =
      if ((!(kt.1 == m || kt.1 == "OPTIONS")) &&
          (kt.2.get_value path).1.isSome) = true then
        kt.1 :: allowedMethods l path m
      else allowedMethods l path m := by
  unfold allowedMethods
  rw [List.filter_cons]
  split
  · rw [List.map_cons]
  · rfl

/-- The `path == "*"` loop of `allowed` equals the `joinMethod` fold over
the non-OPTIONS method names. -/
theorem foldl_allow_star {T : Type} (l : List (String × Node T)) :
    ∀ acc : String,
    l.foldl (fun allow kt =>
        if kt.1 == "OPTIONS" then allow else joinMethod allow kt.1) acc =
      (starMethods l).foldl joinMethod acc := by
  induction l with
  | nil => intro acc; rfl
  | cons kt l ih =>
    intro acc
    rw [List.foldl_cons, starMethods_cons]
    cases hb : (kt.1 == "OPTIONS") with
    | true =>
      rw [if_pos rfl, if_neg (by decide)]
      exact ih acc
    | false =>
      rw [if_neg (by decide), if_pos (by decide), List.foldl_cons]
      exact ih _

/-- The general-path loop of `allowed` equals the `joinMethod` fold over
the names of the other methods whose trees yield a handler. -/
theorem foldl_allow_path {T : Type} (l : List (String × Node T))
    (path req_method : String) :
    ∀ acc : String,
    l.foldl (fun allow kt =>
        if kt.1 == req_method || kt.1 == "OPTIONS" then allow
        else if (kt.2.get_value path).1.isSome then joinMethod allow kt.1
        else allow) acc =
      (allowedMethods l path req_method).foldl joinMethod acc := by
  induction l with
  | nil => intro acc; rfl
  | cons kt l ih =>
    intro acc
    rw [List.foldl_cons, allowedMethods_cons]
    cases hb : (kt.1 == req_method || kt.1 == "OPTIONS") with
    | true =>
      rw [if_pos rfl, if_neg (by simp)]
      exact ih acc
    | false =>
      rw [if_neg (by decide)]
      cases hsome : ((kt.2.get_value path).1.isSome) with
      | true =>
        rw [if_pos rfl, if_pos (by decide), List.foldl_cons]
        exact ih _
      | false =>
        rw [if_neg (by decide), if_neg (by decide)]
        exact ih acc

/-- Characterisation of `allowed` at `path = "*"`: the registered
non-OPTIONS method names are comma-joined and, when any exist,
`", OPTIONS"` is appended. -/
theorem allowed_star_eq {T : Type} (r : Route T) (m : String)
    (hne : ∀ kt ∈ r.trees, kt.1 ≠ "") :
    r.allowed "*" m =
      (if starMethods r.trees = [] then ""
       else String.intercalate ", " (starMethods r.trees) ++ ", OPTIONS") := by
  unfold Route.allowed
  rw [if_pos rfl, foldl_allow_star]
  rcases hks : starMethods r.trees with _ | ⟨k, ks⟩
  · simp [finishAllow]
  · have hkmem : k ∈ starMethods r.trees := by
      rw [hks]
      exact List.mem_cons_self _ _
    have hkmap : k ∈ r.trees.map Prod.fst := by
      unfold starMethods at hkmem
      exact (List.mem_filter.mp hkmem).1
    rcases List.mem_map.mp hkmap with ⟨kt, hkt, hfst⟩
    have hkne : k ≠ "" := hfst ▸ hne kt hkt
    rw [List.foldl_cons,
      show joinMethod "" k = k from by simp [joinMethod]]
    have hne2 : ks.foldl joinMethod k ≠ "" := foldl_joinMethod_ne_empty ks k hkne
    unfold finishAllow
    rw [if_pos (str_length_pos _ hne2), foldl_joinMethod_intercalate k ks hkne,
      if_neg (by simp)]

/-- Characterisation of `allowed` at an ordinary path: the names of the
registered methods other than the requesting method and OPTIONS whose
trees yield a handler for the path are comma-joined and, when any exist,
`", OPTIONS"` is appended. -/
theorem allowed_path_eq {T : Type} (r : Route T) (path m : String)
    (hpath : path ≠ "*") (hne : ∀ kt ∈ r.trees, kt.1 ≠ "") :
    r.allowed path m =
      (if allowedMethods r.trees path m = [] then ""
       else String.intercalate ", " (allowedMethods r.trees path m) ++
         ", OPTIONS") := by
  unfold Route.allowed
  rw [if_neg hpath, foldl_allow_path]
  rcases hks : allowedMethods r.trees path m with _ | ⟨k, ks⟩
  · simp [finishAllow]
  · have hkmem : k ∈ allowedMethods r.trees path m := by
      rw [hks]
      exact List.mem_cons_self _ _
    have hkfilter : k ∈ (r.trees.filter (fun kt =>
        (!(kt.1 == m || kt.1 == "OPTIONS")) &&
          (kt.2.get_value path).1.isSome)).map Prod.fst := hkmem
    rcases List.mem_map.mp hkfilter with ⟨kt, hkt, hfst⟩
    have hkne : k ≠ "" := hfst ▸ hne kt (List.mem_of_mem_filter hkt)
    rw [List.foldl_cons,
      show joinMethod "" k = k from by simp [joinMethod]]
    have hne2 : ks.foldl joinMethod k ≠ "" := foldl_joinMethod_ne_empty ks k hkne
    unfold finishAllow
    rw [if_pos (str_length_pos _ hne2), foldl_joinMethod_intercalate k ks hkne,
      if_neg (by simp)]

/-- Every `some` answer of the first dispatch phase that is a synthesised
response is a redirect: status 307 unless the method is GET (then 301), a
single `Location` header, an empty body, and it only arises when the
method is not CONNECT and the path is not `/`. -/
theorem servePhase1_response {T : Type} {r : Route T} {req : HttpRequest}
    {resp : HttpResponse}
    (h : r.servePhase1 req = some (ServeResult.response resp)) :
    resp.status = (if req.method ≠ "GET" then 307 else 301) ∧
    (∃ loc, resp.headers = [("Location", loc)]) ∧ resp.body = "" ∧
    req.method ≠ "CONNECT" ∧ req.path ≠ "/" := by
  unfold Route.servePhase1 at h
  split at h
  · exact Option.noConfusion h
  · split at h
    · simp at h
    · split at h
      · rename_i hcond
        split at h
        · simp only [Option.some.injEq, ServeResult.response.injEq] at h
          subst h
          exact ⟨rfl, ⟨_, rfl⟩, rfl, hcond.1, hcond.2⟩
        · split at h
          · split at h
            · simp only [Option.some.injEq, ServeResult.response.injEq] at h
              subst h
              exact ⟨rfl, ⟨_, rfl⟩, rfl, hcond.1, hcond.2⟩
            · exact Option.noConfusion h
          · exact Option.noConfusion h
      · exact Option.noConfusion h

/-- The fall-through phase never answers with a redirect: its synthesised
responses have status 200, 405 or 404. -/
theorem redirectStatus_serveFallback {T : Type} (r : Route T)
    (req : HttpRequest) : redirectStatus (r.serveFallback req) = none := by
  unfold Route.serveFallback Route.serveNotFound
  split
  · split
    · simp [redirectStatus, HttpResponse.isRedirect]
    · split
      · rfl
      · simp [redirectStatus, HttpResponse.isRedirect]
  · split
    · split
      · split
        · rfl
        · simp [redirectStatus, HttpResponse.isRedirect]
      · split
        · rfl
        · simp [redirectStatus, HttpResponse.isRedirect]
    · split
      · rfl
      · simp [redirectStatus, HttpResponse.isRedirect]

/-- Claim C1 (counterexample): the claim "status 301 when the method is
GET or HEAD" is false on the code — a HEAD request answered with a
trailing-slash redirect gets status 307, not 301. -/
theorem serve_http_redirect_status_counterexample :
    ¬ (∀ (T : Type) (r : Route T) (req : HttpRequest) (s : Nat),
        redirectStatus (r.serve_http req) = some s →
        ((req.method = "GET" ∨ req.method = "HEAD") → s = 301) ∧
        (¬ (req.method = "GET" ∨ req.method = "HEAD") → s = 307)) := by
  intro hcl
  have h := hcl Unit (routeWith [("HEAD", fooNode ())]) ⟨"HEAD", "/foo/"⟩ 307
    (by decide)
  have h301 := h.1 (Or.inr rfl)
  exact absurd h301 (by decide)

/-- Claim C1 (amended): every redirect response synthesised by
`serve_http` (trailing-slash or fixed-path) has status 301 when the
request method is GET and status 307 for every other method, including
HEAD. -/
theorem serve_http_redirect_status {T : Type} (r : Route T)
    (req : HttpRequest) (s : Nat)
    (h : redirectStatus (r.serve_http req) = some s) :
    s = (if req.method = "GET" then 301 else 307) := by
  unfold Route.serve_http at h
  rcases hp : r.servePhase1 req with _ | res
  · rw [hp, redirectStatus_serveFallback] at h
    exact Option.noConfusion h
  · rw [hp] at h
    cases res with
    | invoke hh ps => exact Option.noConfusion h
    | response resp =>
      have hr := servePhase1_response hp
      have hs : s = resp.status := by
        change (if resp.isRedirect = true then some resp.status else none) =
          some s at h
        by_cases hred : resp.isRedirect = true
        · rw [if_pos hred] at h
          exact (Option.some.inj h).symm
        · rw [if_neg hred] at h
          exact Option.noConfusion h
      rw [hs, hr.1]
      by_cases hm : req.method = "GET" <;> simp [hm]

/-- Witness for the amended C1 at a concrete HEAD request. -/
theorem serve_http_redirect_status_witness :
    (307 : Nat) = (if ("HEAD" : String) = "GET" then 301 else 307) :=
  serve_http_redirect_status (routeWith [("HEAD", fooNode ())])
    ⟨"HEAD", "/foo/"⟩ 307 (by decide)

/-- Claim C10 (confirmed): a request whose method is CONNECT or whose path
is exactly `/` is never answered with a 301/307 redirect, whatever the
redirect flags are, and when no handler matches it is handled by the
OPTIONS / 405 / 404 fall-through. -/
theorem serve_http_connect_root_no_redirect {T : Type} (r : Route T)
    (req : HttpRequest) (hcr : req.method = "CONNECT" ∨ req.path = "/") :
    redirectStatus (r.serve_http req) = none ∧
    ((∀ root, treesGet r.trees req.method = some root →
        (root.get_value req.path).1 = none) →
      r.serve_http req = r.serveFallback req) := by
  constructor
  · rcases hp : r.servePhase1 req with _ | res
    · unfold Route.serve_http
      rw [hp, redirectStatus_serveFallback]
    · cases res with
      | invoke hh ps =>
        unfold Route.serve_http
        rw [hp]
        rfl
      | response resp =>
        have hr := servePhase1_response hp
        rcases hcr with hm | hpath
        · exact absurd hm hr.2.2.2.1
        · exact absurd hpath hr.2.2.2.2
  · intro hnone
    have hp : r.servePhase1 req = none := by
      unfold Route.servePhase1
      split
      · rfl
      · rename_i root hg
        split
        · rename_i hh ps b heq
          have h0 := hnone root hg
          rw [heq] at h0
          exact Option.noConfusion h0
        · rw [if_neg]
          rintro ⟨h1, h2⟩
          rcases hcr with hm | hpath
          · exact h1 hm
          · exact h2 hpath
    unfold Route.serve_http
    rw [hp]

/-- Witness for C10 at a concrete CONNECT request. -/
theorem serve_http_connect_root_no_redirect_witness :
    redirectStatus ((routeWith [("CONNECT", fooNode ())]).serve_http
        ⟨"CONNECT", "/foo/"⟩) = none ∧
    ((∀ root,
        treesGet (routeWith [("CONNECT", fooNode ())]).trees "CONNECT" =
          some root →
        (root.get_value "/foo/").1 = none) →
      (routeWith [("CONNECT", fooNode ())]).serve_http ⟨"CONNECT", "/foo/"⟩ =
        (routeWith [("CONNECT", fooNode ())]).serveFallback
          ⟨"CONNECT", "/foo/"⟩) :=
  serve_http_connect_root_no_redirect (routeWith [("CONNECT", fooNode ())])
    ⟨"CONNECT", "/foo/"⟩ (Or.inl rfl)

/-- Claim C4 (confirmed): when no handler matched, the tree recommends the
trailing-slash redirect, `redirect_trailing_slash` is enabled, the method
is not CONNECT and the path is not `/`, `serve_http` answers a redirect
whose `Location` is the request path with the trailing slash toggled:
the trailing `/` is removed when the path ends with `/` and is longer
than one character, otherwise a `/` is appended. -/
theorem serve_http_tsr_redirect {T : Type} (r : Route T) (req : HttpRequest)
    (root : Node T) (ps : Params)
    (hg : treesGet r.trees req.method = some root)
    (hgv : root.get_value req.path = (none, ps, true))
    (hrts : r.redirect_trailing_slash = true)
    (hm : req.method ≠ "CONNECT") (hpath : req.path ≠ "/") :
    r.serve_http req = ServeResult.response
      ⟨(if req.method ≠ "GET" then 307 else 301),
       [("Location",
         if req.path.length > 1 ∧ endsWithSlash req.path = true then
           String.mk req.path.data.dropLast
         else req.path ++ "/")], ""⟩ := by
  have hp : r.servePhase1 req = some (ServeResult.response
      ⟨(if req.method ≠ "GET" then 307 else 301),
       [("Location",
         if req.path.length > 1 ∧ endsWithSlash req.path = true then
           String.mk req.path.data.dropLast
         else req.path ++ "/")], ""⟩) := by
    unfold Route.servePhase1
    split
    · rename_i heq
      rw [heq] at hg
      exact Option.noConfusion hg
    · rename_i root2 heq
      rw [heq] at hg
      have hroot : root2 = root := Option.some.inj hg
      subst hroot
      split
      · rename_i hh ps2 b heq2
        rw [hgv] at heq2
        simp at heq2
      · rename_i ps2 tsr heq2
        rw [hgv] at heq2
        have htsr : tsr = true := by
          have := congrArg (fun x => x.2.2) heq2
          simpa using this
        rw [if_pos ⟨hm, hpath⟩, if_pos ⟨htsr, hrts⟩]
  unfold Route.serve_http
  rw [hp]

/-- Witness for C4: `/foo` is registered for GET, requesting `/foo/`
redirects to `/foo` with status 301. -/
theorem serve_http_tsr_redirect_witness :
    (routeWith [("GET", fooNode ())]).serve_http ⟨"GET", "/foo/"⟩ =
      ServeResult.response ⟨301, [("Location", "/foo")], ""⟩ :=
  serve_http_tsr_redirect (routeWith [("GET", fooNode ())]) ⟨"GET", "/foo/"⟩
    (fooNode ()) Params.new rfl rfl rfl (by decide) (by decide)

/-- Claim C3 (counterexample): as stated the claim is false — with the
default flags, an OPTIONS request for a path registered under GET
satisfies every stated hypothesis (`handle_method_not_allowed` true, the
request's method has no handler, GET yields a handler, no custom
method-not-allowed handler), yet `serve_http` answers the automatic
OPTIONS reply (status 200), not 405. -/
theorem serve_http_method_not_allowed_counterexample :
    ¬ (∀ (T : Type) (r : Route T) (req : HttpRequest),
        r.handle_method_not_allowed = true →
        (∀ root, treesGet r.trees req.method = some root →
          (root.get_value req.path).1 = none) →
        (∃ kt, kt ∈ r.trees ∧ kt.1 ≠ req.method ∧ kt.1 ≠ "OPTIONS" ∧
          (kt.2.get_value req.path).1.isSome = true) →
        r.method_not_allowed = none →
        ∃ allow, r.serve_http req =
          ServeResult.response
            ⟨405, [("Allow", allow)], "METHOD_NOT_ALLOWED"⟩) := by
  intro hcl
  have h := hcl Unit (routeWith [("GET", fooNode ())]) ⟨"OPTIONS", "/foo"⟩
    rfl
    (by
      intro root hroot
      have h0 : treesGet (routeWith [("GET", fooNode ())] :
          Route Unit).trees "OPTIONS" = none := rfl
      rw [h0] at hroot
      exact Option.noConfusion hroot)
    ⟨("GET", fooNode ()), List.mem_cons_self _ _, by decide, by decide, rfl⟩
    rfl
  obtain ⟨allow, heq⟩ := h
  have hserve : (routeWith [("GET", fooNode ())] : Route Unit).serve_http
      ⟨"OPTIONS", "/foo"⟩ =
      ServeResult.response ⟨200, [("Allow", "GET, OPTIONS")], ""⟩ := by decide
  rw [hserve] at heq
  have hstat := congrArg statusOf heq
  simp only [statusOf, Option.some.injEq] at hstat
  exact absurd hstat (by decide)

/-- Claim C3 (amended): when the first dispatch phase falls through (no
handler and no redirect), the request is not an auto-answered OPTIONS
request, `handle_method_not_allowed` is enabled, no custom
method-not-allowed handler is configured, the path is not `*`, the
registered method names are non-empty strings, and at least one other
registered non-OPTIONS method yields a handler for the path, then
`serve_http` answers 405 with an `Allow` header listing exactly those
methods comma-joined followed by `", OPTIONS"` and the fixed body
`METHOD_NOT_ALLOWED`; when the table is sorted by method name (the
`BTreeMap` invariant) the listed methods are in ascending (alphabetical)
order. -/
theorem serve_http_method_not_allowed_eq {T : Type} (r : Route T)
    (req : HttpRequest)
    (hphase : r.servePhase1 req = none)
    (hopt : ¬ (req.method = "OPTIONS" ∧ r.handle_options = true))
    (hmna : r.handle_method_not_allowed = true)
    (hcustom : r.method_not_allowed = none)
    (hstar : req.path ≠ "*")
    (hne : ∀ kt ∈ r.trees, kt.1 ≠ "")
    (hms : allowedMethods r.trees req.path req.method ≠ []) :
    r.serve_http req = ServeResult.response
      ⟨405,
       [("Allow",
         String.intercalate ", "
           (allowedMethods r.trees req.path req.method) ++ ", OPTIONS")],
       "METHOD_NOT_ALLOWED"⟩ ∧
    (List.Pairwise (fun a b => a.1 < b.1) r.trees →
      List.Pairwise (fun a b => a < b)
        (allowedMethods r.trees req.path req.method)) := by
  have hallow : r.allowed req.path req.method =
      String.intercalate ", " (allowedMethods r.trees req.path req.method) ++
        ", OPTIONS" := by
    rw [allowed_path_eq r req.path req.method hstar hne, if_neg hms]
  have hlen : (r.allowed req.path req.method).length > 0 := by
    rw [hallow, String.length_append]
    have h9 : String.length ", OPTIONS" = 9 := rfl
    omega
  constructor
  · unfold Route.serve_http
    rw [hphase]
    unfold Route.serveFallback
    rw [if_neg hopt, if_pos hmna, if_pos hlen, hcustom, hallow]
  · intro hsorted
    unfold allowedMethods
    exact List.pairwise_map.mpr (List.Pairwise.filter _ hsorted)

/-- Witness for the amended C3: `/foo` is registered for GET and POST, a
DELETE request for `/foo` is answered 405 with
`Allow: GET, POST, OPTIONS`, the methods in alphabetical order. -/
theorem serve_http_method_not_allowed_eq_witness :
    (routeWith [("GET", fooNode ()), ("POST", fooNode ())]).serve_http
        ⟨"DELETE", "/foo"⟩ =
      ServeResult.response ⟨405, [("Allow", "GET, POST, OPTIONS")],
        "METHOD_NOT_ALLOWED"⟩ ∧
    List.Pairwise (fun a b => a < b)
      (allowedMethods
        (routeWith [("GET", fooNode ()), ("POST", fooNode ())] :
          Route Unit).trees "/foo" "DELETE") := by
  have h := serve_http_method_not_allowed_eq
    (routeWith [("GET", fooNode ()), ("POST", fooNode ())])
    ⟨"DELETE", "/foo"⟩
    (by decide) (by decide) rfl rfl (by decide)
    (by
      intro kt hkt
      rcases List.mem_cons.mp hkt with h1 | h2
      · subst h1; decide
      · rcases List.mem_cons.mp h2 with h1 | h3
        · subst h1; decide
        · cases h3)
    (by decide)
  refine ⟨h.1, h.2 ?_⟩
  refine List.Pairwise.cons ?_ (List.Pairwise.cons (by intro b hb; cases hb)
    List.Pairwise.nil)
  intro b hb
  rcases List.mem_cons.mp hb with h1 | h2
  · subst h1
    refine String.lt_iff_toList_lt.mpr ?_
    exact List.Lex.rel (show ('G' : Char) < 'P' by decide)
  · cases h2

/-- Claim C2 (counterexample): `allowed("*", m)` does not return only the
registered non-OPTIONS method names comma-joined — the code appends
`", OPTIONS"`: with only GET registered, `allowed "*" "OPTIONS"` is
`"GET, OPTIONS"`, not `"GET"`. -/
theorem allowed_star_counterexample :
    ¬ (∀ (T : Type) (r : Route T) (m : String),
        r.allowed "*" m = String.intercalate ", " (starMethods r.trees)) := by
  intro hcl
  have h := hcl Unit (routeWith [("GET", emptyNode)]) "OPTIONS"
  exact absurd h (by decide)

/-- Claim C2 (amended): for every route table whose method names are
non-empty strings, `allowed("*", m)` returns the registered non-OPTIONS
method names comma-joined with `", OPTIONS"` appended, and the empty
string when no non-OPTIONS method is registered. -/
theorem allowed_star_spec {T : Type} (r : Route T) (m : String)
    (hne : ∀ kt ∈ r.trees, kt.1 ≠ "") :
    r.allowed "*" m =
      (if starMethods r.trees = [] then ""
       else String.intercalate ", " (starMethods r.trees) ++ ", OPTIONS") :=
  allowed_star_eq r m hne

/-- Witness for the amended C2 at a concrete one-method table. -/
theorem allowed_star_spec_witness :
    (routeWith [("GET", (emptyNode : Node Unit))]).allowed "*" "OPTIONS" =
      (if starMethods (routeWith [("GET", (emptyNode : Node Unit))]).trees = []
       then ""
       else String.intercalate ", "
          (starMethods
            (routeWith [("GET", (emptyNode : Node Unit))]).trees) ++
          ", OPTIONS") :=
  allowed_star_spec (routeWith [("GET", emptyNode)]) "OPTIONS"
    (by
      intro kt hkt
      rcases List.mem_cons.mp hkt with h1 | h2
      · subst h1; decide
      · cases h2)

/-- Claim C5 (confirmed): `handle` rejects every path that does not begin
with `/` with a registration-time fatal error (the Rust panic, modelled
as `Except.error`), leaving the route trees untouched — the caller keeps
the unmodified table; for every path beginning with `/` registration
proceeds to tree insertion. -/
theorem handle_requires_leading_slash {T : Type} (r : Route T)
    (addRoute : Node T → String → T → Node T) (newNode : Node T)
    (method path : String) (h : T) :
    (beginsWithSlash path = false →
      r.handleWith addRoute newNode method path h =
        Except.error ("path must begin with / in path " ++ path)) ∧
    (beginsWithSlash path = true →
      r.handleWith addRoute newNode method path h =
        Except.ok { r with
          trees := treesInsert r.trees method
            (addRoute (nodeGetOr r.trees method newNode) path h) }) := by
  constructor
  · intro hb
    unfold Route.handleWith
    rw [if_pos hb]
  · intro hb
    unfold Route.handleWith
    rw [if_neg (by simp [hb])]

/-- Witness for C5: registering `foo` fails, registering `/bar` inserts
into the GET tree. -/
theorem handle_requires_leading_slash_witness :
    (Route.new.handleWith (fun n _ _ => n) (emptyNode : Node Unit)
        "GET" "foo" () =
      Except.error "path must begin with / in path foo") ∧
    (Route.new.handleWith (fun n _ _ => n) (emptyNode : Node Unit)
        "GET" "/bar" () =
      Except.ok { Route.new with trees := [("GET", (emptyNode : Node Unit))] }) :=
  ⟨(handle_requires_leading_slash Route.new (fun n _ _ => n) emptyNode
      "GET" "foo" ()).1 rfl,
   (handle_requires_leading_slash Route.new (fun n _ _ => n) emptyNode
      "GET" "/bar" ()).2 rfl⟩

/-- First-match characterisation of `List.find?` on `Param` lists. -/
theorem find_param_first (l : List Param) (name : String) :
    ((∀ param ∈ l, param.key ≠ name) →
      l.find? (fun param => param.key == name) = none) ∧
    (∀ i, (hi : i < l.length) → (l.get ⟨i, hi⟩).key = name →
      (∀ j, (hj : j < l.length) → j < i → (l.get ⟨j, hj⟩).key ≠ name) →
      l.find? (fun param => param.key == name) = some (l.get ⟨i, hi⟩)) := by
  induction l with
  | nil =>
    constructor
    · intro _; rfl
    · intro i hi
      exact absurd hi (Nat.not_lt_zero i)
  | cons a l ih =>
    constructor
    · intro hall
      rw [List.find?_cons_of_neg]
      · exact ih.1 (fun x hx => hall x (List.mem_cons_of_mem a hx))
      · simp [hall a (List.mem_cons_self a l)]
    · intro i hi hkey hfirst
      cases i with
      | zero =>
        rw [List.find?_cons_of_pos]
        · rfl
        · simp only [List.get] at hkey
          simp [hkey]
      | succ n =>
        have ha : a.key ≠ name := by
          have := hfirst 0 (Nat.succ_pos _) (Nat.succ_pos n)
          simpa using this
        rw [List.find?_cons_of_neg]
        · have hkey2 : (l.get ⟨n, Nat.lt_of_succ_lt_succ hi⟩).key = name := by
            simpa using hkey
          have hfirst2 : ∀ j, (hj : j < l.length) → j < n →
              (l.get ⟨j, hj⟩).key ≠ name := by
            intro j hj hjn
            have := hfirst (j + 1) (Nat.succ_lt_succ hj) (Nat.succ_lt_succ hjn)
            simpa using this
          have := ih.2 n (Nat.lt_of_succ_lt_succ hi) hkey2 hfirst2
          rw [this]
          rfl
        · simp [ha]

/-- Claim C7 (confirmed): `Params::get` returns the value of the first
(lowest-index) `Param` whose key equals `name`, and `none` when no param
has that key; with duplicate keys the first match wins. -/
theorem params_get_first (p : Params) (name : String) :
    ((∀ param ∈ p.toList, param.key ≠ name) → p.get name = none) ∧
    (∀ i, (hi : i < p.toList.length) →
      (p.toList.get ⟨i, hi⟩).key = name →
      (∀ j, (hj : j < p.toList.length) → j < i →
        (p.toList.get ⟨j, hj⟩).key ≠ name) →
      p.get name = some (p.toList.get ⟨i, hi⟩).value) := by
  constructor
  · intro hall
    unfold Params.get
    rw [(find_param_first p.toList name).1 hall]
  · intro i hi hkey hfirst
    unfold Params.get
    rw [(find_param_first p.toList name).2 i hi hkey hfirst]

/-- Witness for C7: with the duplicate key `a`, the first value wins. -/
theorem params_get_first_witness : paramsDup.get "a" = some "1" :=
  (params_get_first paramsDup "a").2 0 (by decide) (by decide)
    (fun j _ hj0 => absurd hj0 (Nat.not_lt_zero j))

/-- Claim C8 (counterexample): positional indexing does have an error
state — indexing the empty `Params` at position 0 yields no value (the
Rust `Vec` indexing panics). -/
theorem params_index_counterexample :
    ¬ (∀ (p : Params) (i : Nat), ∃ v, p.index i = some v) := by
  intro hcl
  obtain ⟨v, hv⟩ := hcl Params.new 0
  exact Option.noConfusion hv

/-- Claim C8 (amended): indexing within bounds returns the value at that
position; indexing at or beyond the length — in particular any position
of an empty `Params` — has no value (a panic in the Rust code). -/
theorem params_index_spec (p : Params) (i : Nat) :
    (∀ hi : i < p.toList.length,
      p.index i = some (p.toList.get ⟨i, hi⟩).value) ∧
    (p.toList.length ≤ i → p.index i = none) := by
  constructor
  · intro hi
    unfold Params.index
    rw [List.get?_eq_get hi]
    rfl
  · intro hi
    unfold Params.index
    rw [List.get?_eq_none.mpr hi]
    rfl

/-- Witness for the amended C8 at a concrete one-entry `Params`. -/
theorem params_index_spec_witness :
    paramsOne.index 0 = some "v" ∧ paramsOne.index 5 = none :=
  ⟨(params_index_spec paramsOne 0).1 (by decide),
   (params_index_spec paramsOne 5).2 (by decide)⟩

/-- Claim C9 (confirmed): serving is read-only — `serve_http` (whose
`&self` receiver is made explicit in `serve_http_st`) and `lookup` leave
the per-method trees, all four policy flags and the three fallback
handlers unchanged. -/
theorem serving_read_only {T : Type} (r : Route T) (method path : String)
    (req : HttpRequest) :
    ((r.lookup method path).2.trees = r.trees ∧
     (r.lookup method path).2.redirect_trailing_slash =
       r.redirect_trailing_slash ∧
     (r.lookup method path).2.redirect_fixed_path = r.redirect_fixed_path ∧
     (r.lookup method path).2.handle_method_not_allowed =
       r.handle_method_not_allowed ∧
     (r.lookup method path).2.handle_options = r.handle_options ∧
     (r.lookup method path).2.not_found = r.not_found ∧
     (r.lookup method path).2.method_not_allowed = r.method_not_allowed ∧
     (r.lookup method path).2.panic_handler = r.panic_handler) ∧
    ((r.serve_http_st req).2.trees = r.trees ∧
     (r.serve_http_st req).2.redirect_trailing_slash =
       r.redirect_trailing_slash ∧
     (r.serve_http_st req).2.redirect_fixed_path = r.redirect_fixed_path ∧
     (r.serve_http_st req).2.handle_method_not_allowed =
       r.handle_method_not_allowed ∧
     (r.serve_http_st req).2.handle_options = r.handle_options ∧
     (r.serve_http_st req).2.not_found = r.not_found ∧
     (r.serve_http_st req).2.method_not_allowed = r.method_not_allowed ∧
     (r.serve_http_st req).2.panic_handler = r.panic_handler) :=
  ⟨⟨rfl, rfl, rfl, rfl, rfl, rfl, rfl, rfl⟩,
   ⟨rfl, rfl, rfl, rfl, rfl, rfl, rfl, rfl⟩⟩

end WowRouter
